import Mathlib

/-!
# Verification of the gas-metered Ristretto255 native-function bridge

A shallow embedding, in Lean 4, of the parts of
`aptos-move/framework/src/natives/cryptography/ristretto255_point.rs` and
`aptos-move/aptos-gas/src/abstract_algebra.rs` that the specification talks
about, together with theorems settling the specification's claims.

Modelling conventions:
* Rust `u64` / `usize` values are modelled as `Nat`; where the machine width
  matters (Rust's `usize::BITS` and `leading_zeros`) the width 64 is explicit.
* The elliptic-curve type `RistrettoPoint` is an abstract type parameter `P`:
  the spec treats the curve arithmetic as a correct external primitive, so the
  natives are embedded parametrically in the point operations they call.
* Fallible Rust code (indexing that may panic, `unwrap`, division by zero)
  is embedded with `Option` / `Except`, `none` standing for a panic.
-/

namespace Ristretto

/-- The store of native Ristretto points:
`struct PointStore { points: Vec<RistrettoPoint> }`.
The `Vec` is a Lean `List`; handles are indices into it. -/
structure PointStore (P : Type) where
  points : List P
deriving DecidableEq

/-- The empty store (`PointStore::default()`). -/
def PointStore.empty (P : Type) : PointStore P := ⟨[]⟩

/-- `PointStore::get_point`: `self.points.get(handle.0 as usize).unwrap()`.
The `unwrap` panic on an out-of-range handle is modelled by `none`. -/
def get_point {P : Type} (s : PointStore P) (handle : Nat) : Option P :=
  s.points[handle]?

/-- `PointStore::set_point`: `self.points[handle.0 as usize] = point`.
Rust indexing panics out of range, modelled by `none`. -/
def set_point {P : Type} (s : PointStore P) (handle : Nat) (p : P) :
    Option (PointStore P) :=
  if handle < s.points.length then some ⟨s.points.set handle p⟩ else none

/-- `PointStore::add_point`: reads `id = self.points.len()`, pushes the point,
and returns `id`. The result is the pair (returned handle, updated store). -/
def add_point {P : Type} (s : PointStore P) (p : P) : Nat × PointStore P :=
  (s.points.length, ⟨s.points ++ [p]⟩)

/-- Iterated `add_point`, used to state the handle-monotonicity claim:
fold `add_point` over a list of points, keeping only the store. -/
def add_points {P : Type} (s : PointStore P) (ps : List P) : PointStore P :=
  ps.foldl (fun t p => (add_point t p).2) s

/-- `PointStore::get_two_muts`: compares the two handles (`Ord::cmp`); on
`Equal` it panics (modelled by `none`); otherwise it sets `(sw, lo, hi)` so
that `lo < hi`, calls `split_at_mut(lo + 1)` on the backing vector (`take` /
`drop` here), indexes `left[lo]` and `right[hi - (lo + 1)]` (an out-of-range
index panics, modelled by `none`), and swaps the pair back into the caller's
requested `(a, b)` order when `sw` is set. -/
def get_two_muts {P : Type} (s : PointStore P) (a b : Nat) : Option (P × P) :=
  if a < b then
    let left := s.points.take (a + 1)
    let right := s.points.drop (a + 1)
    match left[a]?, right[b - (a + 1)]? with
    | some a_ref, some b_ref => some (a_ref, b_ref)
    | _, _ => none
  else if b < a then
    let left := s.points.take (b + 1)
    let right := s.points.drop (b + 1)
    match left[b]?, right[a - (b + 1)]? with
    | some b_ref, some a_ref => some (a_ref, b_ref)
    | _, _ => none
  else none

/-- Rust's `usize::BITS` on the 64-bit targets the node software runs on. -/
def USIZE_BITS : Nat := 64

/-- `usize::leading_zeros`: the number of leading zero bits of a 64-bit value,
i.e. 64 minus the bit length; `Nat.size` is exactly the bit length. -/
def leading_zeros (n : Nat) : Nat := USIZE_BITS - Nat.size n

/-- `log2_floor` from `ristretto255_point.rs`: `None` for `n = 0`, otherwise
`Some(((usize::BITS - n.leading_zeros()) - 1) as usize)`. -/
def log2_floor (n : Nat) : Option Nat :=
  if n = 0 then none
  else some ((USIZE_BITS - leading_zeros n) - 1)

/-- The gas parameters read by the point natives. The struct itself is
declared in `ristretto255.rs` (outside the sampled sources); these are the
fields the sampled natives read, each an unsigned 64-bit quantity
(`InternalGas` / `InternalGasPerArg` / `InternalGasPerByte`), modelled as
`Nat`. It is the per-session read-only parameters table of spec section 3. -/
structure GasParameters where
  point_decompress : Nat
  point_add : Nat
  point_sub : Nat
  point_mul : Nat
  point_parse_arg : Nat
  scalar_parse_arg : Nat
deriving DecidableEq

/-- `u64::MAX`, the sentinel handle returned by `native_point_decompress`
on undecodable input. -/
def U64_MAX : Nat := 2 ^ 64 - 1

/-- A byte of a Move `vector<u8>` argument. -/
abbrev Byte := Fin 256

/-- `compressed_point_from_bytes`: `<[u8; 32]>::try_from(bytes)` succeeds
exactly when the vector has length 32, giving `Some(CompressedRistretto(..))`
(the same 32 bytes); otherwise `None`. -/
def compressed_point_from_bytes (bytes : List Byte) : Option (List Byte) :=
  if bytes.length = 32 then some bytes else none

/-- `GasParameters::decompress_maybe_non_canonical_point_bytes`: on a failed
length check it returns `None` without touching the cumulative cost; after a
successful length check it adds `point_decompress * NumArgs::one()` to the
cumulative cost and attempts `compressed.decompress()`. The curve-library
decompression is the abstract parameter `dec` (a 32-byte canonical encoding
check plus point construction, treated as an external primitive). The result
is (updated cumulative cost, optional point). -/
def decompress_maybe_non_canonical_point_bytes {P : Type}
    (dec : List Byte → Option P) (gp : GasParameters)
    (cumulative_cost : Nat) (bytes : List Byte) : Nat × Option P :=
  match compressed_point_from_bytes bytes with
  | none => (cumulative_cost, none)
  | some compressed => (cumulative_cost + gp.point_decompress * 1, dec compressed)

/-- `native_point_is_canonical`: starts from zero cost, runs
`decompress_maybe_non_canonical_point_bytes`, and returns
`(cost, opt_point.is_some())` as a successful `NativeResult`. -/
def native_point_is_canonical {P : Type}
    (dec : List Byte → Option P) (gp : GasParameters)
    (bytes : List Byte) : Nat × Bool :=
  let r := decompress_maybe_non_canonical_point_bytes dec gp 0 bytes
  (r.1, r.2.isSome)

/-- `native_point_decompress`: starts from zero cost, runs
`decompress_maybe_non_canonical_point_bytes`; on `None` it returns the
successful `NativeResult` `(cost, u64::MAX, false)` with the store untouched;
on `Some(point)` it calls `add_point` and returns `(cost, id, true)` with the
grown store. Result layout: (cost, returned handle, success flag, store). -/
def native_point_decompress {P : Type}
    (dec : List Byte → Option P) (gp : GasParameters)
    (s : PointStore P) (bytes : List Byte) :
    Nat × Nat × Bool × PointStore P :=
  match decompress_maybe_non_canonical_point_bytes dec gp 0 bytes with
  | (cost, none) => (cost, U64_MAX, false, s)
  | (cost, some point) =>
    let r := add_point s point
    (cost, r.1, true, r.2)

/-- `native_point_add`: cost is `point_add * NumArgs::one()`; when not in
place, reads both operands (`get_point`, panicking on a bad handle) and
appends `a.add(b)`; when in place, obtains the two references with
`get_two_muts` (panicking on equal handles) and performs `a.add_assign(&*b)`,
i.e. writes `a + b` back at handle `a`, returning handle `a`.
Result layout: (cost, returned handle, store). -/
def native_point_add {P : Type} [Add P] (gp : GasParameters)
    (s : PointStore P) (a_handle b_handle : Nat) (in_place : Bool) :
    Option (Nat × Nat × PointStore P) :=
  let cost := gp.point_add * 1
  match in_place with
  | false => do
    let a ← get_point s a_handle
    let b ← get_point s b_handle
    let r := add_point s (a + b)
    some (cost, r.1, r.2)
  | true => do
    let ab ← get_two_muts s a_handle b_handle
    let s2 ← set_point s a_handle (ab.1 + ab.2)
    some (cost, a_handle, s2)

/-- `native_point_sub`: identical to `native_point_add` with
`sub` / `sub_assign` in place of `add` / `add_assign`, and cost
`point_sub * NumArgs::one()`. -/
def native_point_sub {P : Type} [Sub P] (gp : GasParameters)
    (s : PointStore P) (a_handle b_handle : Nat) (in_place : Bool) :
    Option (Nat × Nat × PointStore P) :=
  let cost := gp.point_sub * 1
  match in_place with
  | false => do
    let a ← get_point s a_handle
    let b ← get_point s b_handle
    let r := add_point s (a - b)
    some (cost, r.1, r.2)
  | true => do
    let ab ← get_two_muts s a_handle b_handle
    let s2 ← set_point s a_handle (ab.1 - ab.2)
    some (cost, a_handle, s2)

/-- The integer gas-cost expression charged by
`safe_native_multi_scalar_mul_no_floating_point` (the argument of
`context.charge`): `point_parse_arg * num + scalar_parse_arg * num +
point_mul * (num / log2_floor(num + 1).unwrap())`. The `unwrap` panic and a
division by zero panic are both modelled by `none`. -/
def msm_gas_cost (gp : GasParameters) (num : Nat) : Option Nat :=
  match log2_floor (num + 1) with
  | none => none
  | some d =>
    if d = 0 then none
    else some (gp.point_parse_arg * num + gp.scalar_parse_arg * num
      + gp.point_mul * (num / d))

/-- The observable steps of one run of the safe multiscalar-multiply native,
recorded in execution order so the charging protocol can be stated. -/
inductive MsmEvent
  | chargeAttempt (amount : Nat)
  | parseScalar (i : Nat)
  | parsePoint (i : Nat)
  | multiscalarMul
deriving DecidableEq

/-- The error outcomes of the safe native: out-of-gas from `charge`, or an
internal invariant violation (a panic or a `PartialVMError` from parsing). -/
inductive SafeNativeError
  | outOfGas
  | invariantViolation
deriving DecidableEq

/-- Modelled from the spec: `SafeNativeContext::charge`
(`crate::natives::helpers`, outside the sampled sources) "deducts from the
session's remaining budget; fails when the budget is exhausted" (spec
section 6), the failure being the out-of-gas condition of spec section 7. -/
def charge (budget amount : Nat) : Except SafeNativeError Nat :=
  if amount ≤ budget then Except.ok (budget - amount)
  else Except.error SafeNativeError.outOfGas

/-- One parsing loop of the safe native (`for i in 0..num`), fetching and
converting element `i` (a failure is a propagated `PartialVMError`), recording
one event per element processed. Arguments: element fetcher, event
constructor, starting index, remaining count. -/
def parse_elems {β : Type} (fetch : Nat → Option β) (ev : Nat → MsmEvent) :
    Nat → Nat → List MsmEvent × Except SafeNativeError (List β)
  | _, 0 => ([], Except.ok [])
  | i, k + 1 =>
    match fetch i with
    | none => ([ev i], Except.error SafeNativeError.invariantViolation)
    | some y =>
      match parse_elems fetch ev (i + 1) k with
      | (evs, Except.ok ys) => (ev i :: evs, Except.ok (y :: ys))
      | (evs, Except.error e) => (ev i :: evs, Except.error e)

/-- `safe_native_multi_scalar_mul_no_floating_point`: reads
`num = scalars_ref.len()`, charges `msm_gas_cost` (a cost-computation panic is
an invariant violation; `charge` may fail with out-of-gas), then parses the
`num` scalars (`scalar_from_struct`), then the `num` points
(`get_point_handle_from_struct` followed by `PointStore::get_point`), runs
`RistrettoPoint::vartime_multiscalar_mul`, and appends the result with
`add_point`. The conversions and the multiscalar multiplication are abstract
parameters (external primitives from the VM value layer and the curve
library). The result is the event trace in execution order paired with
either an error or (remaining budget, returned handle, store). -/
def safe_native_multi_scalar_mul_no_floating_point
    {Sraw Praw S P : Type} (gp : GasParameters)
    (scalar_from_struct : Sraw → Option S)
    (point_handle_from_struct : Praw → Option Nat)
    (vartime_multiscalar_mul : List S → List P → P)
    (budget : Nat) (store : PointStore P)
    (scalars_ref : List Sraw) (points_ref : List Praw) :
    List MsmEvent × Except SafeNativeError (Nat × Nat × PointStore P) :=
  let num := scalars_ref.length
  match msm_gas_cost gp num with
  | none => ([], Except.error SafeNativeError.invariantViolation)
  | some cost =>
    match charge budget cost with
    | Except.error e => ([MsmEvent.chargeAttempt cost], Except.error e)
    | Except.ok remaining =>
      match parse_elems (fun i => scalars_ref[i]? >>= scalar_from_struct)
          MsmEvent.parseScalar 0 num with
      | (evs1, Except.error e) =>
        (MsmEvent.chargeAttempt cost :: evs1, Except.error e)
      | (evs1, Except.ok scalars) =>
        match parse_elems
            (fun i => points_ref[i]? >>= point_handle_from_struct
              >>= get_point store) MsmEvent.parsePoint 0 num with
        | (evs2, Except.error e) =>
          (MsmEvent.chargeAttempt cost :: (evs1 ++ evs2), Except.error e)
        | (evs2, Except.ok points) =>
          let result := vartime_multiscalar_mul scalars points
          let r := add_point store result
          (MsmEvent.chargeAttempt cost ::
              (evs1 ++ evs2 ++ [MsmEvent.multiscalarMul]),
            Except.ok (remaining, r.1, r.2))

/-- The divisor `f64::log2(num as f64)` of the cost formula of the legacy
`native_multi_scalar_mul` (the retired floating-point native), modelled at
the inputs where IEEE-754 `log2` is exact, namely the powers of two: there
its value is the exact exponent. At every other input the value is a
non-integer float, which this integer development leaves unmodelled (`none`). -/
def legacy_f64_log2_exact (num : Nat) : Option Nat :=
  if 2 ^ Nat.log2 num = num then some (Nat.log2 num) else none

end Ristretto

namespace GasAlgebra

/-- The dimension (unit) of a gas quantity: `InternalGasUnit`, `Arg`, and the
quotient units `UnitDiv<U, V>` of `move_core_types::gas_algebra`. -/
inductive GasUnit
  | internalGasUnit
  | arg
  | unitDiv (num den : GasUnit)
deriving DecidableEq

/-- `GasQuantity<U>`: an unsigned integer tagged with a phantom unit. -/
structure GasQuantity (u : GasUnit) where
  val : Nat
deriving DecidableEq

/-- `impl Add for GasQuantity<U>`: same-unit addition. -/
def GasQuantity.add {u : GasUnit} (a b : GasQuantity u) : GasQuantity u :=
  ⟨a.val + b.val⟩

/-- `impl Mul<GasQuantity<T>> for GasQuantity<UnitDiv<U, T>>`: multiplying a
per-`T` quantity by a count of `T` yields a `U` quantity. -/
def GasQuantity.mulBy {u v : GasUnit}
    (a : GasQuantity (GasUnit.unitDiv u v)) (b : GasQuantity v) :
    GasQuantity u :=
  ⟨a.val * b.val⟩

/-- `InternalGas = GasQuantity<InternalGasUnit>`. -/
abbrev InternalGas := GasQuantity GasUnit.internalGasUnit

/-- `InternalGasPerArg = GasQuantity<UnitDiv<InternalGasUnit, Arg>>`. -/
abbrev InternalGasPerArg :=
  GasQuantity (GasUnit.unitDiv GasUnit.internalGasUnit GasUnit.arg)

/-- `NumArgs = GasQuantity<Arg>`. -/
abbrev NumArgs := GasQuantity GasUnit.arg

/-- `struct SumGasParameters { base: InternalGas, per_element: InternalGasPerArg }`. -/
structure SumGasParameters where
  base : InternalGas
  per_element : InternalGasPerArg
deriving DecidableEq

/-- `struct GasParameters { sum: SumGasParameters }` of `abstract_algebra.rs`. -/
structure GasParameters where
  sum : SumGasParameters
deriving DecidableEq

/-- The abstract gas formula tree of `abstract_algebra.rs`, indexed by its
unit. The Rust encoding is structural (one type per shape, a trait
`AbstractGasFormula` with an associated `Unit`); the sum type has one
constructor per node kind: the two parameter references (`GetGasParam<P>` for
`SUM_BASE` / `SUM_PER_ELEMENT`, each with its fixed unit), embedded
quantities, the same-unit `AbstractGasAdd`, and `AbstractGasMul` whose unit
composes by `UnitDiv` cancellation, exactly the `Mul` impl available on
`GasQuantity`. -/
inductive AbstractGasFormula : GasUnit → Type
  | get_gas_param_sum_base : AbstractGasFormula GasUnit.internalGasUnit
  | get_gas_param_sum_per_element :
      AbstractGasFormula (GasUnit.unitDiv GasUnit.internalGasUnit GasUnit.arg)
  | quantity {u : GasUnit} (q : GasQuantity u) : AbstractGasFormula u
  | add {u : GasUnit} (left right : AbstractGasFormula u) :
      AbstractGasFormula u
  | mul {u v : GasUnit}
      (left : AbstractGasFormula (GasUnit.unitDiv u v))
      (right : AbstractGasFormula v) : AbstractGasFormula u

/-- `AbstractGasFormula::materialize`: post-order evaluation against the
parameters table; a parameter reference reads its table entry, `add`
materializes both children and adds, `mul` materializes both children and
multiplies. -/
def materialize : {u : GasUnit} → AbstractGasFormula u → GasParameters →
    GasQuantity u
  | _, AbstractGasFormula.get_gas_param_sum_base, T => T.sum.base
  | _, AbstractGasFormula.get_gas_param_sum_per_element, T =>
      T.sum.per_element
  | _, AbstractGasFormula.quantity q, _ => q
  | _, AbstractGasFormula.add l r, T =>
      GasQuantity.add (materialize l T) (materialize r T)
  | _, AbstractGasFormula.mul l r, T =>
      GasQuantity.mulBy (materialize l T) (materialize r T)

/-- The formula charged by `native_sum` for an input slice of length `n`:
`gas_param!(SUM_BASE) + gas_param!(SUM_PER_ELEMENT) * NumArgs::new(n)`. -/
def native_sum_formula (n : Nat) : AbstractGasFormula GasUnit.internalGasUnit :=
  AbstractGasFormula.add AbstractGasFormula.get_gas_param_sum_base
    (AbstractGasFormula.mul AbstractGasFormula.get_gas_param_sum_per_element
      (AbstractGasFormula.quantity ⟨n⟩))

/-- `native_sum`: charges `native_sum_formula` for the slice length and
returns the sum of the elements. Result: (charged formula, returned sum). -/
def native_sum (v : List Nat) :
    AbstractGasFormula GasUnit.internalGasUnit × Nat :=
  (native_sum_formula v.length, v.sum)

end GasAlgebra

namespace Ristretto

theorem size_eq_log2_succ (n : Nat) (h : n ≠ 0) :
    Nat.size n = Nat.log2 n + 1 := by
  apply le_antisymm
  · exact Nat.size_le.mpr (Nat.lt_log2_self)
  · exact Nat.lt_size.mpr (Nat.log2_self_le h)

theorem log2_floor_eq_log2 (n : Nat) (h0 : 0 < n) (hw : n < 2 ^ USIZE_BITS) :
    log2_floor n = some (Nat.log2 n) := by
  have hsz : Nat.size n ≤ USIZE_BITS := Nat.size_le.mpr hw
  have hne : n ≠ 0 := Nat.pos_iff_ne_zero.mp h0
  unfold log2_floor leading_zeros
  rw [if_neg hne]
  have : USIZE_BITS - (USIZE_BITS - Nat.size n) = Nat.size n :=
    Nat.sub_sub_self hsz
  rw [this, size_eq_log2_succ n hne]
  simp

theorem add_points_points {P : Type} (ps : List P) (s : PointStore P) :
    (add_points s ps).points = s.points ++ ps := by
  induction ps generalizing s with
  | nil => simp [add_points]
  | cons p ps ih =>
    have : add_points s (p :: ps) = add_points ⟨s.points ++ [p]⟩ ps := rfl
    rw [this, ih]
    simp

theorem get_two_muts_eq {P : Type} (s : PointStore P) (a b : Nat)
    (hne : a ≠ b) (ha : a < s.points.length) (hb : b < s.points.length) :
    get_two_muts s a b = some (s.points[a], s.points[b]) := by
  rcases Nat.lt_or_ge a b with hab | hab
  · have h1 : (s.points.take (a + 1))[a]? = some s.points[a] := by
      rw [List.getElem?_take, if_pos (Nat.lt_succ_self a),
        List.getElem?_eq_getElem ha]
    have h2 : (s.points.drop (a + 1))[b - (a + 1)]? = some s.points[b] := by
      rw [List.getElem?_drop]
      have he : a + 1 + (b - (a + 1)) = b := by omega
      rw [he, List.getElem?_eq_getElem hb]
    simp only [get_two_muts, if_pos hab, h1, h2]
  · have hba : b < a := by omega
    have h1 : (s.points.take (b + 1))[b]? = some s.points[b] := by
      rw [List.getElem?_take, if_pos (Nat.lt_succ_self b),
        List.getElem?_eq_getElem hb]
    have h2 : (s.points.drop (b + 1))[a - (b + 1)]? = some s.points[a] := by
      rw [List.getElem?_drop]
      have he : b + 1 + (a - (b + 1)) = a := by omega
      rw [he, List.getElem?_eq_getElem ha]
    simp only [get_two_muts, if_neg (by omega : ¬ a < b), if_pos hba, h1, h2]

theorem get_two_muts_same {P : Type} (s : PointStore P) (a : Nat) :
    get_two_muts s a a = none := by
  simp [get_two_muts]

/-- C7: `log2_floor 0 = none`; for every positive `usize` value `n`,
`log2_floor n = some (Nat.log2 n)` where `Nat.log2 n` is the unique `k`
with `2 ^ k ≤ n < 2 ^ (k + 1)`; and the subtraction chain inside the body
never underflows, so the function is total on the whole `usize` range. -/
theorem log2_floor_correct :
    log2_floor 0 = none ∧
    ∀ n : Nat, 0 < n → n < 2 ^ USIZE_BITS →
      log2_floor n = some (Nat.log2 n) ∧
      2 ^ Nat.log2 n ≤ n ∧ n < 2 ^ (Nat.log2 n + 1) ∧
      (∀ k : Nat, 2 ^ k ≤ n → n < 2 ^ (k + 1) → k = Nat.log2 n) ∧
      1 ≤ USIZE_BITS - leading_zeros n := by
  constructor
  · rfl
  · intro n h0 hw
    have hne : n ≠ 0 := by omega
    refine ⟨log2_floor_eq_log2 n h0 hw, Nat.log2_self_le hne,
      Nat.lt_log2_self, ?_, ?_⟩
    · intro k hk1 hk2
      have h1 : k < Nat.log2 n + 1 :=
        (Nat.pow_lt_pow_iff_right (by omega : 1 < 2)).mp
          (lt_of_le_of_lt hk1 Nat.lt_log2_self)
      have h2 : Nat.log2 n < k + 1 :=
        (Nat.pow_lt_pow_iff_right (by omega : 1 < 2)).mp
          (lt_of_le_of_lt (Nat.log2_self_le hne) hk2)
      omega
    · have hsz : Nat.size n ≤ USIZE_BITS := Nat.size_le.mpr hw
      have hpos : 0 < Nat.size n := Nat.size_pos.mpr h0
      unfold leading_zeros
      omega

theorem log2_floor_correct_witness :
    log2_floor 12 = some (Nat.log2 12) ∧ 2 ^ Nat.log2 12 ≤ 12 := by
  have h := log2_floor_correct.2 12 (by decide) (by decide)
  exact ⟨h.1, h.2.1⟩

theorem msm_gas_cost_eval (gp : GasParameters) (n : Nat)
    (h1 : 1 ≤ n) (hw : n + 1 < 2 ^ USIZE_BITS) :
    msm_gas_cost gp n = some (gp.point_parse_arg * n + gp.scalar_parse_arg * n
      + gp.point_mul * (n / Nat.log2 (n + 1))) := by
  have hfl := log2_floor_eq_log2 (n + 1) (by omega) hw
  have hd : 1 ≤ Nat.log2 (n + 1) :=
    (Nat.le_log2 (by omega)).mpr (by simp only [pow_one]; omega)
  unfold msm_gas_cost
  rw [hfl]
  show (if Nat.log2 (n + 1) = 0 then none
      else some (gp.point_parse_arg * n + gp.scalar_parse_arg * n
        + gp.point_mul * (n / Nat.log2 (n + 1)))) = _
  rw [if_neg (by omega)]

/-- C1: for every `n ≥ 1` in the `usize` range, the cost charged by the safe
multiscalar-multiply native is
`point_parse_arg * n + scalar_parse_arg * n + point_mul * (n / log2_floor (n + 1))`,
computed entirely over `Nat`; the divisor `log2_floor (n + 1)` is defined and
at least 1 (the division is never by zero), and the cost is a pure function
of `n`, so repeated evaluation on the same `n` yields identical results. -/
theorem msm_cost_closed_form (gp : GasParameters) (n : Nat)
    (h1 : 1 ≤ n) (hw : n + 1 < 2 ^ USIZE_BITS) :
    log2_floor (n + 1) = some (Nat.log2 (n + 1)) ∧
    1 ≤ Nat.log2 (n + 1) ∧
    msm_gas_cost gp n = some (gp.point_parse_arg * n + gp.scalar_parse_arg * n
      + gp.point_mul * (n / Nat.log2 (n + 1))) ∧
    msm_gas_cost gp n = msm_gas_cost gp n := by
  have hfl := log2_floor_eq_log2 (n + 1) (by omega) hw
  have hd : 1 ≤ Nat.log2 (n + 1) :=
    (Nat.le_log2 (by omega)).mpr (by simp only [pow_one]; omega)
  exact ⟨hfl, hd, msm_gas_cost_eval gp n h1 hw, rfl⟩

theorem msm_cost_closed_form_witness :
    msm_gas_cost ⟨7, 11, 13, 17, 19, 23⟩ 1
      = some (19 * 1 + 23 * 1 + 17 * (1 / Nat.log2 (1 + 1))) :=
  (msm_cost_closed_form ⟨7, 11, 13, 17, 19, 23⟩ 1 (by decide) (by decide)).2.2.1

/-- C5: `add_point` returns the pre-call length as the minted handle and
appends exactly one object; after `n` adds starting from the empty store the
store holds exactly the `n` objects added, the `k`-th call mints handle `k`,
and `get_point` on a minted handle returns the object passed to the
corresponding `add_point`; `add_point` grows the store by one and `set_point`
never changes its length (no operation removes or shrinks entries). -/
theorem add_point_handle_monotonicity (P : Type) :
    (∀ (s : PointStore P) (p : P),
      add_point s p = (s.points.length, ⟨s.points ++ [p]⟩)) ∧
    (∀ ps : List P, (add_points (PointStore.empty P) ps).points = ps) ∧
    (∀ (ps : List P) (k : Nat) (p : P), k ≤ ps.length →
      (add_point (add_points (PointStore.empty P) (ps.take k)) p).1 = k) ∧
    (∀ (ps : List P) (h : Nat) (hh : h < ps.length),
      get_point (add_points (PointStore.empty P) ps) h = some ps[h]) ∧
    (∀ (s : PointStore P) (p : P),
      (add_point s p).2.points.length = s.points.length + 1) ∧
    (∀ (s : PointStore P) (h : Nat) (p : P) (s2 : PointStore P),
      set_point s h p = some s2 → s2.points.length = s.points.length) := by
  refine ⟨fun s p => rfl, ?_, ?_, ?_, ?_, ?_⟩
  · intro ps
    rw [add_points_points]
    simp [PointStore.empty]
  · intro ps k p hk
    simp only [add_point, add_points_points, PointStore.empty]
    simp [List.length_take]
    omega
  · intro ps h hh
    unfold get_point
    rw [add_points_points]
    simp [PointStore.empty, List.getElem?_eq_getElem hh]
  · intro s p
    simp [add_point]
  · intro s h p s2 hset
    unfold set_point at hset
    by_cases hlt : h < s.points.length
    · rw [if_pos hlt] at hset
      cases hset
      simp
    · rw [if_neg hlt] at hset
      cases hset

theorem add_point_handle_monotonicity_witness :
    add_point (⟨[3]⟩ : PointStore Int) 5 = (1, ⟨[3, 5]⟩) ∧
    get_point (add_points (PointStore.empty Int) [3, 5, 8]) 2 = some 8 := by
  refine ⟨(add_point_handle_monotonicity Int).1 ⟨[3]⟩ 5, ?_⟩
  exact (add_point_handle_monotonicity Int).2.2.2.1 [3, 5, 8] 2 (by decide)

/-- C4: for distinct in-range handles, `get_two_muts` returns the objects
stored at indices `a` and `b`, in the requested `(a, b)` order regardless of
which index is lower; the two views do not alias — writing through one is
observable at its own index only, the other index reading as before; and
requesting the same handle twice panics. -/
theorem get_two_muts_correct (P : Type) (s : PointStore P) (a b : Nat)
    (hne : a ≠ b) (ha : a < s.points.length) (hb : b < s.points.length) :
    get_two_muts s a b = some (s.points[a], s.points[b]) ∧
    (∀ x : P, set_point s a x = some ⟨s.points.set a x⟩ ∧
      get_point ⟨s.points.set a x⟩ a = some x ∧
      get_point ⟨s.points.set a x⟩ b = get_point s b) ∧
    (∀ y : P, set_point s b y = some ⟨s.points.set b y⟩ ∧
      get_point ⟨s.points.set b y⟩ b = some y ∧
      get_point ⟨s.points.set b y⟩ a = get_point s a) ∧
    get_two_muts s a a = none := by
  refine ⟨get_two_muts_eq s a b hne ha hb, ?_, ?_, get_two_muts_same s a⟩
  · intro x
    refine ⟨by unfold set_point; rw [if_pos ha], ?_, ?_⟩
    · unfold get_point
      exact List.getElem?_set_self ha
    · unfold get_point
      exact List.getElem?_set_ne hne
  · intro y
    refine ⟨by unfold set_point; rw [if_pos hb], ?_, ?_⟩
    · unfold get_point
      exact List.getElem?_set_self hb
    · unfold get_point
      exact List.getElem?_set_ne (Ne.symm hne)

theorem get_two_muts_correct_witness :
    get_two_muts (⟨[10, 20, 30]⟩ : PointStore Int) 2 0 = some (30, 10) ∧
    get_two_muts (⟨[10, 20, 30]⟩ : PointStore Int) 2 2 = none := by
  have h := get_two_muts_correct Int ⟨[10, 20, 30]⟩ 2 0
    (by decide) (by decide) (by decide)
  exact ⟨h.1, h.2.2.2⟩

/-- C9: for distinct valid handles, the non-in-place `add` / `sub` native
appends the combined value at a fresh handle (the pre-call length) while the
in-place variant stores the same combined value at handle `a` and returns
handle `a` itself; reading the fresh handle after the non-in-place call and
handle `a` after the in-place call yields the same point value. -/
theorem point_add_sub_inplace_parity (P : Type) [Add P] [Sub P]
    (gp : GasParameters) (s : PointStore P) (a b : Nat)
    (hne : a ≠ b) (ha : a < s.points.length) (hb : b < s.points.length) :
    (native_point_add gp s a b false
        = some (gp.point_add * 1, s.points.length,
            ⟨s.points ++ [s.points[a] + s.points[b]]⟩) ∧
      native_point_add gp s a b true
        = some (gp.point_add * 1, a,
            ⟨s.points.set a (s.points[a] + s.points[b])⟩) ∧
      get_point ⟨s.points ++ [s.points[a] + s.points[b]]⟩ s.points.length
        = some (s.points[a] + s.points[b]) ∧
      get_point ⟨s.points.set a (s.points[a] + s.points[b])⟩ a
        = some (s.points[a] + s.points[b])) ∧
    (native_point_sub gp s a b false
        = some (gp.point_sub * 1, s.points.length,
            ⟨s.points ++ [s.points[a] - s.points[b]]⟩) ∧
      native_point_sub gp s a b true
        = some (gp.point_sub * 1, a,
            ⟨s.points.set a (s.points[a] - s.points[b])⟩) ∧
      get_point ⟨s.points ++ [s.points[a] - s.points[b]]⟩ s.points.length
        = some (s.points[a] - s.points[b]) ∧
      get_point ⟨s.points.set a (s.points[a] - s.points[b])⟩ a
        = some (s.points[a] - s.points[b])) := by
  have hga : get_point s a = some s.points[a] := List.getElem?_eq_getElem ha
  have hgb : get_point s b = some s.points[b] := List.getElem?_eq_getElem hb
  have htm := get_two_muts_eq s a b hne ha hb
  have hsp : ∀ v : P, set_point s a v = some ⟨s.points.set a v⟩ := by
    intro v
    unfold set_point
    rw [if_pos ha]
  constructor
  · refine ⟨?_, ?_, ?_, ?_⟩
    · simp [native_point_add, hga, hgb, add_point]
    · simp [native_point_add, htm, hsp]
    · exact List.getElem?_concat_length _ _
    · exact List.getElem?_set_self ha
  · refine ⟨?_, ?_, ?_, ?_⟩
    · simp [native_point_sub, hga, hgb, add_point]
    · simp [native_point_sub, htm, hsp]
    · exact List.getElem?_concat_length _ _
    · exact List.getElem?_set_self ha

theorem point_add_sub_inplace_parity_witness :
    native_point_add (⟨0, 0, 0, 0, 0, 0⟩ : GasParameters)
        (⟨[100, 7]⟩ : PointStore Int) 0 1 false
      = some (0, 2, ⟨[100, 7, 107]⟩) ∧
    native_point_sub (⟨0, 0, 0, 0, 0, 0⟩ : GasParameters)
        (⟨[100, 7]⟩ : PointStore Int) 0 1 true
      = some (0, 0, ⟨[93, 7]⟩) := by
  have h := point_add_sub_inplace_parity Int ⟨0, 0, 0, 0, 0, 0⟩ ⟨[100, 7]⟩ 0 1
    (by decide) (by decide) (by decide)
  refine ⟨?_, ?_⟩
  · have := h.1.1
    simpa using this
  · have := h.2.2.1
    simpa using this

/-- C6: on input whose length is not 32, or whose 32 bytes fail to decompress
to a point, `native_point_decompress` returns the in-band sentinel result
`(u64::MAX, false)` (the embedding is total, i.e. the `NativeResult` is the
`Ok` case) and leaves the store untouched; on a decodable input it mints a
fresh handle, returns `(handle, true)` and appends exactly that point. -/
theorem native_point_decompress_recoverable (P : Type)
    (dec : List Byte → Option P) (gp : GasParameters)
    (s : PointStore P) (bytes : List Byte) :
    (bytes.length ≠ 32 →
      native_point_decompress dec gp s bytes = (0, U64_MAX, false, s)) ∧
    (bytes.length = 32 → dec bytes = none →
      native_point_decompress dec gp s bytes
        = (gp.point_decompress * 1, U64_MAX, false, s)) ∧
    (∀ p : P, bytes.length = 32 → dec bytes = some p →
      native_point_decompress dec gp s bytes
        = (gp.point_decompress * 1, s.points.length, true,
            ⟨s.points ++ [p]⟩)) := by
  refine ⟨?_, ?_, ?_⟩
  · intro hlen
    simp [native_point_decompress, decompress_maybe_non_canonical_point_bytes,
      compressed_point_from_bytes, hlen]
  · intro hlen hdec
    simp [native_point_decompress, decompress_maybe_non_canonical_point_bytes,
      compressed_point_from_bytes, hlen, hdec]
  · intro p hlen hdec
    simp [native_point_decompress, decompress_maybe_non_canonical_point_bytes,
      compressed_point_from_bytes, hlen, hdec, add_point]

theorem native_point_decompress_recoverable_witness :
    native_point_decompress (fun _ => (none : Option Int)) ⟨7, 0, 0, 0, 0, 0⟩
        (PointStore.empty Int) [0, 1, 2]
      = (0, U64_MAX, false, PointStore.empty Int) :=
  (native_point_decompress_recoverable Int (fun _ => none) ⟨7, 0, 0, 0, 0, 0⟩
    (PointStore.empty Int) [0, 1, 2]).1 (by decide)

/-- C10: `native_point_is_canonical` and `native_point_decompress` charge
zero gas when the input length is not 32 (the length check precedes the
charge), and exactly `point_decompress * 1` when the length is 32, whether or
not the decompression itself then succeeds. -/
theorem decompress_charges_after_length_check (P : Type)
    (dec : List Byte → Option P) (gp : GasParameters)
    (s : PointStore P) (bytes : List Byte) :
    (bytes.length ≠ 32 →
      (native_point_is_canonical dec gp bytes).1 = 0 ∧
      (native_point_decompress dec gp s bytes).1 = 0) ∧
    (bytes.length = 32 →
      (native_point_is_canonical dec gp bytes).1 = gp.point_decompress * 1 ∧
      (native_point_decompress dec gp s bytes).1 = gp.point_decompress * 1) := by
  refine ⟨fun hlen => ⟨?_, ?_⟩, fun hlen => ?_⟩
  · simp [native_point_is_canonical,
      decompress_maybe_non_canonical_point_bytes,
      compressed_point_from_bytes, hlen]
  · simp [native_point_decompress,
      decompress_maybe_non_canonical_point_bytes,
      compressed_point_from_bytes, hlen]
  · cases hd : dec bytes with
    | none =>
      constructor <;>
        simp [native_point_is_canonical, native_point_decompress,
          decompress_maybe_non_canonical_point_bytes,
          compressed_point_from_bytes, hlen, hd]
    | some p =>
      constructor <;>
        simp [native_point_is_canonical, native_point_decompress,
          decompress_maybe_non_canonical_point_bytes,
          compressed_point_from_bytes, hlen, hd]

theorem decompress_charges_after_length_check_witness :
    (native_point_is_canonical (fun _ => (none : Option Int))
        ⟨7, 0, 0, 0, 0, 0⟩ (List.replicate 32 (0 : Byte))).1 = 7 * 1 ∧
    (native_point_is_canonical (fun _ => (none : Option Int))
        ⟨7, 0, 0, 0, 0, 0⟩ [0, 1]).1 = 0 := by
  constructor
  · exact ((decompress_charges_after_length_check Int (fun _ => none)
      ⟨7, 0, 0, 0, 0, 0⟩ (PointStore.empty Int)
      (List.replicate 32 (0 : Byte))).2 (by decide)).1
  · exact ((decompress_charges_after_length_check Int (fun _ => none)
      ⟨7, 0, 0, 0, 0, 0⟩ (PointStore.empty Int) [0, 1]).1 (by decide)).1

/-- C3: the first observable step of the safe multiscalar-multiply native is
always the charge of the declared-length-based cost — no per-element parsing
and no multiplication precede it — and when the budget cannot cover the
cost the native stops at once with the out-of-gas error, its trace showing
the charge attempt and nothing else. -/
theorem msm_charge_before_work (Sraw Praw S P : Type) (gp : GasParameters)
    (scalar_from_struct : Sraw → Option S)
    (point_handle_from_struct : Praw → Option Nat)
    (vartime_multiscalar_mul : List S → List P → P)
    (budget : Nat) (store : PointStore P)
    (scalars_ref : List Sraw) (points_ref : List Praw) (cost : Nat)
    (h : msm_gas_cost gp scalars_ref.length = some cost) :
    (safe_native_multi_scalar_mul_no_floating_point gp scalar_from_struct
        point_handle_from_struct vartime_multiscalar_mul budget store
        scalars_ref points_ref).1.head?
      = some (MsmEvent.chargeAttempt cost) ∧
    (budget < cost →
      safe_native_multi_scalar_mul_no_floating_point gp scalar_from_struct
          point_handle_from_struct vartime_multiscalar_mul budget store
          scalars_ref points_ref
        = ([MsmEvent.chargeAttempt cost],
            Except.error SafeNativeError.outOfGas)) := by
  simp only [safe_native_multi_scalar_mul_no_floating_point, h, charge]
  by_cases hble : cost ≤ budget
  · rw [if_pos hble]
    constructor
    · rcases h1 : parse_elems
          (fun i => scalars_ref[i]? >>= scalar_from_struct)
          MsmEvent.parseScalar 0 scalars_ref.length with ⟨evs1, r1⟩
      simp only [h1]
      cases r1 with
      | error e => rfl
      | ok scalars =>
        rcases h2 : parse_elems
            (fun i => points_ref[i]? >>= point_handle_from_struct
              >>= get_point store)
            MsmEvent.parsePoint 0 scalars_ref.length with ⟨evs2, r2⟩
        simp only [h2]
        cases r2 with
        | error e => rfl
        | ok points => rfl
    · intro hlt
      omega
  · rw [if_neg hble]
    exact ⟨rfl, fun _ => rfl⟩

theorem msm_charge_before_work_witness :
    safe_native_multi_scalar_mul_no_floating_point
        (⟨1, 1, 1, 1, 1, 1⟩ : GasParameters)
        (fun _ : Unit => some ()) (fun _ : Unit => some 0)
        (fun _ _ => (0 : Int)) 0 (PointStore.empty Int) [()] [()]
      = ([MsmEvent.chargeAttempt 3], Except.error SafeNativeError.outOfGas) := by
  have h : msm_gas_cost (⟨1, 1, 1, 1, 1, 1⟩ : GasParameters)
      ([()] : List Unit).length = some 3 := by
    have he := msm_gas_cost_eval ⟨1, 1, 1, 1, 1, 1⟩ 1 (by decide) (by decide)
    simpa [Nat.log2] using he
  exact (msm_charge_before_work Unit Unit Unit Int ⟨1, 1, 1, 1, 1, 1⟩
    (fun _ => some ()) (fun _ => some 0) (fun _ _ => 0) 0
    (PointStore.empty Int) [()] [()] 3 h).2 (by decide)

/-- C2 fails on the legacy native: `native_multi_scalar_mul` computes its
`point_mul` multiplier as `(num as f64 / f64::log2(num as f64)).ceil()`.
At `num = 1` the divisor `f64::log2(1.0)` is exactly 0 (IEEE-754 `log2` is
exact on powers of two, as `legacy_f64_log2_exact` records), so the legacy
cost computation performs a floating-point division by zero; the warning
comment above that native marks it as retired for exactly this reason, and
`safe_native_multi_scalar_mul_no_floating_point` is its integer replacement. -/
theorem legacy_msm_divisor_zero_at_one :
    legacy_f64_log2_exact 1 = some 0 := by
  simp [legacy_f64_log2_exact, Nat.log2]

end Ristretto

namespace GasAlgebra

/-- C8: materializing an `add` formula is the sum of materializing the two
(same-unit) children, for every parameters table; and with table entries
`base = 10`, `per_element = 1`, the formula `base + per_element * count(3)` —
the formula `native_sum` charges for a 3-element slice — materializes to 13. -/
theorem materialize_add_distributes :
    (∀ (u : GasUnit) (f g : AbstractGasFormula u) (T : GasParameters),
      materialize (AbstractGasFormula.add f g) T
        = GasQuantity.add (materialize f T) (materialize g T)) ∧
    materialize (native_sum_formula 3) ⟨⟨⟨10⟩, ⟨1⟩⟩⟩ = ⟨13⟩ ∧
    (native_sum [5, 6, 7]).1 = native_sum_formula 3 :=
  ⟨fun _ _ _ _ => rfl, rfl, rfl⟩

end GasAlgebra
